import Mathlib

/-!
# Verification of netzob's vocabulary SearchEngine

Shallow embedding of `src/netzob/Inference/Vocabulary/Search/SearchEngine.py`.

Bit sequences (Python `bitarray`) are `List Bool`.  The Python code consumes
several collaborators that are not part of the source file:

* `bitarray.search` (the bit matcher invoked at `SearchEngine.__search`),
* `AbstractType.mutate` (the mutation generator invoked by
  `SearchEngine.buildSearchTasks`),
* the `SearchTask` / `SearchResult` value classes.

Those are modelled from the design document (see the doc comments of
`bitarraySearch` and `mutate`); everything else is translated directly from
the Python source.  Python `raise TypeError` is modelled with
`Except Err`: an exception aborts the call, discarding any local state, which
`Except.error` captures faithfully because the accumulated results are not
part of the error value.
-/

/-- Errors raised by the engine.  The Python code raises `TypeError`; the
design document calls this condition `InvalidInputError`. -/
inductive Err : Type
  | typeError (msg : String) : Err
deriving DecidableEq, Repr

/-- Modelled from the spec: the `SearchTask` value class
(`netzob.Inference.Vocabulary.Search.SearchTask`) is absent from the source
tree; per the design it binds one generated mutation, i.e. a bit sequence
(`data`, read by `SearchEngine.__search`) and its encoding label
(`mutationType`, the dictionary key it came from in `buildSearchTasks`). -/
structure SearchTask : Type where
  data : List Bool
  mutationType : String
deriving DecidableEq, Repr

/-- Modelled from the spec: the `SearchResult` value class is absent from the
source tree; per the design it records the target bit sequence, the task and
the non-empty ordered list of half-open match ranges, exactly the three
arguments of the constructor call at `SearchEngine.__search` line 167. -/
structure SearchResult : Type where
  target : List Bool
  task : SearchTask
  ranges : List (Nat × Nat)
deriving DecidableEq, Repr

/-- A `HighlightFunction startPos endPos`, as appended to
`message.visualizationFunctions` at `searchDataInMessage` line 141. -/
structure HighlightFunction : Type where
  startPos : Nat
  endPos : Nat
deriving DecidableEq, Repr

/-- An `AbstractMessage`: its payload (already as a bit sequence: the source
converts `message.data` from `Raw` to `BitArray` before matching, and the
conversion is a bijection between byte strings and their bit serializations)
and its list of visualization functions. -/
structure AbstractMessage : Type where
  data : List Bool
  visualizationFunctions : List HighlightFunction
deriving DecidableEq, Repr

/-- Modelled from the spec: `bitarray.search` is third-party library code
absent from the source tree; it is the Bit Matcher of the design.  Per §4.2
it returns every start offset `i` such that
`haystack[i : i + len(needle)] == needle`, in ascending order, including
overlapping occurrences, and an empty needle never matches. -/
def bitarraySearch (haystack needle : List Bool) : List Nat :=
  if needle.isEmpty then []
  else (List.range (haystack.length + 1 - needle.length)).filter
    (fun i => decide ((haystack.drop i).take needle.length = needle))

/-- The ranges computed for one search case by the loop at
`SearchEngine.__search` lines 162-164: each start offset becomes the
half-open pair `(startIndex, startIndex + len(searchTask.data))`. -/
def taskRanges (target : List Bool) (task : SearchTask) : List (Nat × Nat) :=
  (bitarraySearch target task.data).map (fun s => (s, s + task.data.length))

/-- `SearchEngine.__search` (lines 157-169).  A search case is a pair whose
components may be malformed: `none` models a component that is `None` or not
an instance of the expected class, which the guard at line 159 rejects by
raising `TypeError` in the middle of the aggregation loop.  A `SearchResult`
is appended only when the range list is non-empty (lines 166-167). -/
def engineSearch : List (Option (List Bool) × Option SearchTask) →
    Except Err (List SearchResult)
  | [] => Except.ok []
  | (targetOpt, taskOpt) :: rest =>
    match targetOpt, taskOpt with
    | some target, some task =>
      let ranges := taskRanges target task
      match engineSearch rest with
      | Except.ok results =>
        Except.ok (if ranges.length > 0 then
          SearchResult.mk target task ranges :: results else results)
      | Except.error e => Except.error e
    | _, _ => Except.error (Err.typeError
        "Each search case must a tupple made of a bitarray and a SearchTask instance")

/-- Modelled from the spec: `AbstractType.mutate` — the Mutation Generator —
is absent from the source tree.  A typed reference value is abstracted by the
ordered association list of (encoding label, bit sequence) pairs its
expansion would produce; per §3 the generator discards any mutation whose
bit sequence is empty, and per §4.1 it is deterministic. -/
def mutate (rawEncodings : List (String × List Bool)) : List (String × List Bool) :=
  rawEncodings.filter (fun p => decide (p.2 ≠ []))

/-- A reference value, abstracted by the raw (label, bits) encoding pairs its
domain-specific expansion produces before the generator's filtering. -/
abbrev RefValue := List (String × List Bool)

/-- `SearchEngine.buildSearchTasks` (lines 171-184): `None` data raises
`TypeError`; otherwise one `SearchTask(mutation, mutationType)` per entry of
`data.mutate()`. -/
def buildSearchTasks (dataOpt : Option RefValue) : Except Err (List SearchTask) :=
  match dataOpt with
  | none => Except.error (Err.typeError "The data cannot be None")
  | some data =>
    Except.ok ((mutate data).map (fun p => SearchTask.mk p.2 p.1))

/-- The highlight functions appended by the tagging loop of
`searchDataInMessage` (lines 138-141): one `HighlightFunction(startPos,
endPos)` per range of each search result, in result order. -/
def highlightsOf (results : List SearchResult) : List HighlightFunction :=
  results.flatMap (fun r => r.ranges.map (fun p => HighlightFunction.mk p.1 p.2))

/-- The search tasks `buildSearchTasks` produces for a (present) value. -/
def tasksFor (data : RefValue) : List SearchTask :=
  (mutate data).map (fun p => SearchTask.mk p.2 p.1)

/-- Closed form of the aggregation performed by `__search` on the
well-formed cases built by `searchDataInMessage`: one `SearchResult` per
task whose range list is non-empty, in task order. -/
def resultsFor (data : RefValue) (target : List Bool) : List SearchResult :=
  ((tasksFor data).filter (fun t => decide (taskRanges target t ≠ []))).map
    (fun t => SearchResult.mk target t (taskRanges target t))

/-- `SearchEngine.searchDataInMessage` (lines 100-142): `None` checks on data
and message, task building, conversion of the message payload to a bit
sequence, the product of `[target]` with the tasks, `__search`, and — when
`addTags` holds — appending one highlight per found range to the message's
visualization functions.  Returns the results together with the (possibly
annotated) message. -/
def searchDataInMessage (dataOpt : Option RefValue)
    (messageOpt : Option AbstractMessage) (addTags : Bool) :
    Except Err (List SearchResult × AbstractMessage) :=
  match dataOpt with
  | none => Except.error (Err.typeError "Data cannot be None")
  | some data =>
    match messageOpt with
    | none => Except.error (Err.typeError "Message cannot be None")
    | some message =>
      let searchTasks := (mutate data).map (fun p => SearchTask.mk p.2 p.1)
      let target := message.data
      let searchCases := searchTasks.map
        (fun t => ((some target : Option (List Bool)), (some t : Option SearchTask)))
      match engineSearch searchCases with
      | Except.error e => Except.error e
      | Except.ok searchResults =>
        Except.ok (searchResults,
          if addTags then
            { message with visualizationFunctions :=
                message.visualizationFunctions ++ highlightsOf searchResults }
          else message)

/-- `SearchEngine.searchInMessage` (lines 81-98): the static public entry
point; `addTags` defaults to `True` and the call is delegated to
`searchDataInMessage`. -/
def searchInMessage (dataOpt : Option RefValue)
    (messageOpt : Option AbstractMessage) (addTags : Bool := true) :
    Except Err (List SearchResult × AbstractMessage) :=
  searchDataInMessage dataOpt messageOpt addTags

/-- Observable steps of one `searchDataInMessage` call, in program order:
`matchedTask` is one execution of the matching loop body of `__search` for
one task, `highlightAppended` is one append of a `HighlightFunction` to the
message (line 141). -/
inductive Event : Type
  | matchedTask (label : String) (ranges : List (Nat × Nat)) : Event
  | highlightAppended (startPos endPos : Nat) : Event
deriving DecidableEq, Repr

/-- The sequence of observable events of a `searchDataInMessage` call,
following the source's control flow: the `None` checks abort before any
work (empty trace), then `__search` runs the matcher once per task in task
order, and only afterwards does the tagging loop append highlights. -/
def searchCallTrace (dataOpt : Option RefValue)
    (messageOpt : Option AbstractMessage) (addTags : Bool) : List Event :=
  match dataOpt with
  | none => []
  | some data =>
    match messageOpt with
    | none => []
    | some message =>
      let matchEvents := (tasksFor data).map
        (fun t => Event.matchedTask t.mutationType (taskRanges message.data t))
      let tagEvents := if addTags then
          (highlightsOf (resultsFor data message.data)).map
            (fun h => Event.highlightAppended h.startPos h.endPos)
        else []
      matchEvents ++ tagEvents

/-! ## Helper lemmas -/

/-- Membership characterization of the modelled bit matcher for a non-empty
needle: an offset is reported exactly when the needle fits and the slice of
the haystack starting there equals the needle. -/
theorem mem_bitarraySearch {haystack needle : List Bool} (hne : needle ≠ [])
    {i : Nat} :
    i ∈ bitarraySearch haystack needle ↔
      i + needle.length ≤ haystack.length ∧
        (haystack.drop i).take needle.length = needle := by
  have hempty : needle.isEmpty = false := by
    cases needle with
    | nil => exact absurd rfl hne
    | cons a l => rfl
  have hnlen : needle.length ≠ 0 := by
    simpa [List.length_eq_zero] using hne
  rw [bitarraySearch, hempty]
  simp only [Bool.false_eq_true, if_false, List.mem_filter, List.mem_range,
    decide_eq_true_eq]
  constructor
  · rintro ⟨h1, h2⟩
    have hlen : min needle.length (haystack.length - i) = needle.length := by
      simpa using congrArg List.length h2
    exact ⟨by omega, h2⟩
  · rintro ⟨h1, h2⟩
    exact ⟨by omega, h2⟩

/-- On well-formed search cases, `__search` never raises and aggregates one
`SearchResult` per case with a non-empty range list, in case order. -/
theorem engineSearch_wellFormed (cases : List (List Bool × SearchTask)) :
    engineSearch (cases.map (fun c => (some c.1, some c.2))) =
      Except.ok ((cases.filter (fun c => decide (taskRanges c.1 c.2 ≠ []))).map
        (fun c => SearchResult.mk c.1 c.2 (taskRanges c.1 c.2))) := by
  induction cases with
  | nil => rfl
  | cons c rest ih =>
    simp only [List.map_cons, engineSearch, ih, List.filter_cons]
    by_cases h : taskRanges c.1 c.2 = []
    · simp [h]
    · have hpos : 0 < (taskRanges c.1 c.2).length := List.length_pos.mpr h
      simp [h, hpos]

/-- Closed form of `searchDataInMessage` on present inputs: it returns the
aggregated results and the message, annotated exactly when `addTags`. -/
theorem searchDataInMessage_eq (data : RefValue) (message : AbstractMessage)
    (addTags : Bool) :
    searchDataInMessage (some data) (some message) addTags =
      Except.ok (resultsFor data message.data,
        if addTags then
          { message with visualizationFunctions :=
              message.visualizationFunctions ++
                highlightsOf (resultsFor data message.data) }
        else message) := by
  have hmap : ((mutate data).map (fun p => SearchTask.mk p.2 p.1)).map
        (fun t => ((some message.data : Option (List Bool)),
          (some t : Option SearchTask))) =
      (((mutate data).map (fun p => SearchTask.mk p.2 p.1)).map
        (fun t => (message.data, t))).map (fun c => (some c.1, some c.2)) := by
    simp
  rw [searchDataInMessage, hmap, engineSearch_wellFormed]
  simp only [resultsFor, tasksFor]
  congr 1
  rw [List.filter_map, List.map_map]
  rfl

/-! ## Claims -/

/-- C1 counterexample: the first search case is well-formed and matches (its
result is aggregated), the second is malformed; the call then raises
`TypeError` and returns no `SearchResults` at all, so the result already
aggregated from the earlier task is NOT reported to the caller. -/
theorem C1_counterexample_earlier_results_discarded :
    engineSearch [(some [true], some (SearchTask.mk [true] "identity"))] =
      Except.ok [SearchResult.mk [true] (SearchTask.mk [true] "identity") [(0, 1)]] ∧
    engineSearch [(some [true], some (SearchTask.mk [true] "identity")),
        (some [true], (none : Option SearchTask))] =
      Except.error (Err.typeError
        "Each search case must a tupple made of a bitarray and a SearchTask instance") ∧
    ∀ results, engineSearch [(some [true], some (SearchTask.mk [true] "identity")),
        (some [true], (none : Option SearchTask))] ≠ Except.ok results := by
  refine ⟨rfl, rfl, ?_⟩
  intro results hr
  exact Except.noConfusion (rfl.symm.trans hr :
    (Except.error (Err.typeError
      "Each search case must a tupple made of a bitarray and a SearchTask instance") :
      Except Err (List SearchResult)) = Except.ok results)

/-- C1 amended: failure granularity is per-call, not per-task: one malformed
search case anywhere in the sequence makes `__search` raise `TypeError` for
the whole call, discarding every result aggregated from earlier well-formed
tasks. -/
theorem C1_amended_malformed_task_aborts_whole_call
    (pre : List (List Bool × SearchTask))
    (bad : Option (List Bool) × Option SearchTask)
    (post : List (Option (List Bool) × Option SearchTask))
    (hbad : bad.1 = none ∨ bad.2 = none) :
    engineSearch (pre.map (fun c => (some c.1, some c.2)) ++ bad :: post) =
      Except.error (Err.typeError
        "Each search case must a tupple made of a bitarray and a SearchTask instance") := by
  induction pre with
  | nil =>
    obtain ⟨targetOpt, taskOpt⟩ := bad
    rcases hbad with h | h
    · simp only at h
      subst h
      cases taskOpt <;> rfl
    · simp only at h
      subst h
      cases targetOpt <;> rfl
  | cons c rest ih =>
    simp only [List.map_cons, List.cons_append, engineSearch]
    rw [List.append_eq, ih]

/-- Witness for the amended C1 at a concrete malformed case. -/
theorem C1_amended_malformed_task_aborts_whole_call_witness :
    engineSearch [(some [true], some (SearchTask.mk [true] "identity")),
        ((none : Option (List Bool)), (none : Option SearchTask))] =
      Except.error (Err.typeError
        "Each search case must a tupple made of a bitarray and a SearchTask instance") :=
  C1_amended_malformed_task_aborts_whole_call
    [([true], SearchTask.mk [true] "identity")]
    ((none : Option (List Bool)), (none : Option SearchTask)) [] (Or.inl rfl)

/-- C2: for every haystack and non-empty needle, the matcher reports exactly
the set of offsets `i` with `haystack[i : i + len(needle)] = needle`,
overlapping occurrences included; in particular needle bits 1010 inside
haystack bits 101010 yields offsets 0 and 2. -/
theorem C2_matcher_reports_all_overlapping_occurrences
    (haystack needle : List Bool) (hne : needle ≠ []) :
    (∀ i : Nat, i ∈ bitarraySearch haystack needle ↔
      i + needle.length ≤ haystack.length ∧
        (haystack.drop i).take needle.length = needle) ∧
    bitarraySearch [true, false, true, false, true, false]
        [true, false, true, false] = [0, 2] :=
  ⟨fun _ => mem_bitarraySearch hne, by decide⟩

/-- Witness for C2 at the spec's overlap example. -/
theorem C2_matcher_reports_all_overlapping_occurrences_witness :
    2 ∈ bitarraySearch [true, false, true, false, true, false]
      [true, false, true, false] :=
  ((C2_matcher_reports_all_overlapping_occurrences
      [true, false, true, false, true, false] [true, false, true, false]
      (by decide)).1 2).mpr (by decide)

/-- C3: a zero-length needle never matches, and an empty-bits search task
contributes no `SearchResult` to the aggregation. -/
theorem C3_empty_needle_never_matches :
    (∀ haystack : List Bool, bitarraySearch haystack [] = []) ∧
    ∀ (target : List Bool) (label : String)
      (rest : List (Option (List Bool) × Option SearchTask)),
      engineSearch ((some target, some (SearchTask.mk [] label)) :: rest) =
        engineSearch rest := by
  refine ⟨fun _ => rfl, ?_⟩
  intro target label rest
  cases h : engineSearch rest with
  | ok r => simp [engineSearch, taskRanges, bitarraySearch, h]
  | error e => simp [engineSearch, taskRanges, bitarraySearch, h]

/-- C4: the aggregation of well-formed cases never raises, every produced
`SearchResult` has a non-empty range list, and when no task's bits occur in
the target the call returns the empty collection (not an error). -/
theorem C4_no_match_produces_no_result
    (cases : List (List Bool × SearchTask)) :
    engineSearch (cases.map (fun c => (some c.1, some c.2))) =
      Except.ok ((cases.filter (fun c => decide (taskRanges c.1 c.2 ≠ []))).map
        (fun c => SearchResult.mk c.1 c.2 (taskRanges c.1 c.2))) ∧
    (∀ r ∈ (cases.filter (fun c => decide (taskRanges c.1 c.2 ≠ []))).map
        (fun c => SearchResult.mk c.1 c.2 (taskRanges c.1 c.2)), r.ranges ≠ []) ∧
    ((∀ c ∈ cases, bitarraySearch c.1 c.2.data = []) →
      engineSearch (cases.map (fun c => (some c.1, some c.2))) = Except.ok []) := by
  refine ⟨engineSearch_wellFormed cases, ?_, ?_⟩
  · intro r hr
    rw [List.mem_map] at hr
    obtain ⟨c, hc, rfl⟩ := hr
    rw [List.mem_filter] at hc
    simpa using hc.2
  · intro hnone
    rw [engineSearch_wellFormed cases]
    have hfil : cases.filter (fun c => decide (taskRanges c.1 c.2 ≠ [])) = [] := by
      rw [List.filter_eq_nil_iff]
      intro c hc
      simp [taskRanges, hnone c hc]
    rw [hfil]
    rfl

/-- Witness for C4: a task whose bits never occur yields the empty collection. -/
theorem C4_no_match_produces_no_result_witness :
    engineSearch [((some [true] : Option (List Bool)),
      (some (SearchTask.mk [false] "zero") : Option SearchTask))] = Except.ok [] :=
  (C4_no_match_produces_no_result [([true], SearchTask.mk [false] "zero")]).2.2
    (by decide)

/-- C5: absent data or absent message fails the call with `TypeError` (the
design's `InvalidInputError`), the event trace is empty (no expansion, no
matching, no tagging ran), and no results are produced. -/
theorem C5_absent_inputs_fail_before_any_work
    (dataOpt : Option RefValue) (messageOpt : Option AbstractMessage)
    (addTags : Bool) (habs : dataOpt = none ∨ messageOpt = none) :
    (∃ msg, searchDataInMessage dataOpt messageOpt addTags =
        Except.error (Err.typeError msg)) ∧
    searchCallTrace dataOpt messageOpt addTags = [] ∧
    buildSearchTasks none =
      Except.error (Err.typeError "The data cannot be None") ∧
    ∀ results message1, searchDataInMessage dataOpt messageOpt addTags ≠
      Except.ok (results, message1) := by
  rcases habs with h | h
  · subst h
    exact ⟨⟨"Data cannot be None", rfl⟩, rfl, rfl,
      fun _ _ hr => Except.noConfusion hr⟩
  · subst h
    cases dataOpt with
    | none => exact ⟨⟨"Data cannot be None", rfl⟩, rfl, rfl,
        fun _ _ hr => Except.noConfusion hr⟩
    | some d => exact ⟨⟨"Message cannot be None", rfl⟩, rfl, rfl,
        fun _ _ hr => Except.noConfusion hr⟩

/-- Witness for C5 at the concrete absent-data call. -/
theorem C5_absent_inputs_fail_before_any_work_witness :
    searchCallTrace (none : Option RefValue) (none : Option AbstractMessage)
      true = [] :=
  (C5_absent_inputs_fail_before_any_work none none true (Or.inl rfl)).2.1

/-- The labels of the aggregated results form a sublist of the reference
value's encoding labels, so uniqueness of the latter carries over. -/
theorem resultsFor_labels_nodup (data : RefValue) (target : List Bool)
    (hlabels : (data.map Prod.fst).Nodup) :
    ((resultsFor data target).map (fun r => r.task.mutationType)).Nodup := by
  have hmapeq : (resultsFor data target).map (fun r => r.task.mutationType) =
      ((tasksFor data).filter
        (fun t => decide (taskRanges target t ≠ []))).map
        (fun t => t.mutationType) := by
    rw [resultsFor, List.map_map]
    rfl
  rw [hmapeq]
  have h1 : List.Sublist
      (((tasksFor data).filter
        (fun t => decide (taskRanges target t ≠ []))).map
        (fun t => t.mutationType))
      ((tasksFor data).map (fun t => t.mutationType)) :=
    (List.filter_sublist _).map _
  have h2 : List.Sublist ((tasksFor data).map (fun t => t.mutationType))
      (data.map Prod.fst) := by
    have heq : (tasksFor data).map (fun t => t.mutationType) =
        (mutate data).map Prod.fst := by
      rw [tasksFor, List.map_map]
      rfl
    rw [heq, mutate]
    exact (List.filter_sublist _).map _
  exact (h1.trans h2).nodup hlabels

/-- C6: the search is deterministic, idempotent (a second run on the message
returned by the first yields the same results, the payload being untouched),
and — the mutation labels being dictionary keys, hence unique — no collection
contains two entries with an identical (mutation label, ranges) pair. -/
theorem C6_search_deterministic_idempotent_no_duplicates
    (data : RefValue) (message : AbstractMessage) (addTags : Bool)
    (hlabels : (data.map Prod.fst).Nodup) :
    searchDataInMessage (some data) (some message) addTags =
      searchDataInMessage (some data) (some message) addTags ∧
    (∀ results message1,
      searchDataInMessage (some data) (some message) addTags =
        Except.ok (results, message1) →
      (∃ message2, searchDataInMessage (some data) (some message1) addTags =
          Except.ok (results, message2)) ∧
      results.Pairwise (fun r1 r2 =>
        ¬(r1.task.mutationType = r2.task.mutationType ∧
          r1.ranges = r2.ranges))) := by
  refine ⟨rfl, ?_⟩
  intro results message1 hok
  rw [searchDataInMessage_eq] at hok
  simp only [Except.ok.injEq, Prod.mk.injEq] at hok
  obtain ⟨hres, hmsg⟩ := hok
  have hdata1 : message1.data = message.data := by
    rw [← hmsg]
    cases addTags <;> rfl
  constructor
  · refine ⟨if addTags then
        { message1 with visualizationFunctions :=
            message1.visualizationFunctions ++
              highlightsOf (resultsFor data message1.data) }
      else message1, ?_⟩
    rw [searchDataInMessage_eq, hdata1, hres]
  · have hnd := resultsFor_labels_nodup data message.data hlabels
    rw [List.Nodup, List.pairwise_map] at hnd
    rw [← hres]
    exact hnd.imp (fun h hc => h hc.1)

/-- C7: whatever the inputs, a successful call leaves the message payload
byte-for-byte unchanged and only ever appends to the visualization
functions, and appends nothing when tagging is not requested. -/
theorem C7_target_message_data_unchanged (dataOpt : Option RefValue)
    (message : AbstractMessage) (addTags : Bool)
    (results : List SearchResult) (message1 : AbstractMessage)
    (hok : searchDataInMessage dataOpt (some message) addTags =
      Except.ok (results, message1)) :
    message1.data = message.data ∧
    message1.visualizationFunctions =
      message.visualizationFunctions ++
        (if addTags then highlightsOf results else []) := by
  cases dataOpt with
  | none => exact Except.noConfusion hok
  | some data =>
    rw [searchDataInMessage_eq] at hok
    simp only [Except.ok.injEq, Prod.mk.injEq] at hok
    obtain ⟨hres, hmsg⟩ := hok
    subst hres
    rw [← hmsg]
    cases addTags with
    | false => simp
    | true => simp

/-- C8: no `SearchTask` is built from an empty-bits mutation: the generator
discards those before `buildSearchTasks` sees them. -/
theorem C8_no_task_from_empty_mutation (dataOpt : Option RefValue)
    (tasks : List SearchTask)
    (hok : buildSearchTasks dataOpt = Except.ok tasks) :
    ∀ t ∈ tasks, t.data ≠ [] := by
  cases dataOpt with
  | none => exact Except.noConfusion hok
  | some data =>
    simp only [buildSearchTasks, Except.ok.injEq] at hok
    subst hok
    intro t ht
    rw [List.mem_map] at ht
    obtain ⟨p, hp, rfl⟩ := ht
    rw [mutate, List.mem_filter] at hp
    simpa using hp.2

/-- Witness for C8: the empty-bits encoding is dropped, the other survives. -/
theorem C8_no_task_from_empty_mutation_witness :
    (SearchTask.mk [true] "a").data ≠ [] :=
  C8_no_task_from_empty_mutation (some [("e", []), ("a", [true])])
    [SearchTask.mk [true] "a"] rfl (SearchTask.mk [true] "a") (by simp)

/-- Witness for C6 at a concrete one-mutation value. -/
theorem C6_search_deterministic_idempotent_no_duplicates_witness :
    ([SearchResult.mk [true] (SearchTask.mk [true] "id") [(0, 1)]] :
        List SearchResult).Pairwise (fun r1 r2 =>
      ¬(r1.task.mutationType = r2.task.mutationType ∧
        r1.ranges = r2.ranges)) :=
  ((C6_search_deterministic_idempotent_no_duplicates [("id", [true])]
      (AbstractMessage.mk [true] []) true (by decide)).2
    [SearchResult.mk [true] (SearchTask.mk [true] "id") [(0, 1)]]
    (AbstractMessage.mk [true] [HighlightFunction.mk 0 1]) rfl).2

/-- Witness for C7 at a concrete call that finds one match. -/
theorem C7_target_message_data_unchanged_witness :
    (AbstractMessage.mk [true] [HighlightFunction.mk 0 1]).data =
      (AbstractMessage.mk [true] ([] : List HighlightFunction)).data ∧
    (AbstractMessage.mk [true]
        [HighlightFunction.mk 0 1]).visualizationFunctions =
      (AbstractMessage.mk [true]
          ([] : List HighlightFunction)).visualizationFunctions ++
        (if true then highlightsOf
          [SearchResult.mk [true] (SearchTask.mk [true] "id") [(0, 1)]]
         else []) :=
  C7_target_message_data_unchanged (some [("id", [true])])
    (AbstractMessage.mk [true] []) true
    [SearchResult.mk [true] (SearchTask.mk [true] "id") [(0, 1)]]
    (AbstractMessage.mk [true] [HighlightFunction.mk 0 1]) rfl

/-- The trace of a present-inputs call, in source order: first one matching
event per task, then the tagging events. -/
theorem searchCallTrace_eq (data : RefValue) (message : AbstractMessage)
    (addTags : Bool) :
    searchCallTrace (some data) (some message) addTags =
      (tasksFor data).map
        (fun t => Event.matchedTask t.mutationType
          (taskRanges message.data t)) ++
        (if addTags then (highlightsOf (resultsFor data message.data)).map
          (fun h => Event.highlightAppended h.startPos h.endPos)
         else []) := rfl

/-- C9: in the event trace of a tagging call every highlight append comes
strictly after every task's matching, and the returned result collection
does not depend on the tagging flag at all. -/
theorem C9_highlights_appended_after_all_matching (data : RefValue)
    (message : AbstractMessage) :
    (∀ i j s e lbl rg,
      (searchCallTrace (some data) (some message) true).get? i =
          some (Event.highlightAppended s e) →
      (searchCallTrace (some data) (some message) true).get? j =
          some (Event.matchedTask lbl rg) → j < i) ∧
    (∀ flag1 flag2 results1 message1 results2 message2,
      searchDataInMessage (some data) (some message) flag1 =
        Except.ok (results1, message1) →
      searchDataInMessage (some data) (some message) flag2 =
        Except.ok (results2, message2) →
      results1 = results2) := by
  constructor
  · intro i j s e lbl rg hi hj
    have htr : searchCallTrace (some data) (some message) true =
        (tasksFor data).map
          (fun t => Event.matchedTask t.mutationType
            (taskRanges message.data t)) ++
          (highlightsOf (resultsFor data message.data)).map
            (fun h => Event.highlightAppended h.startPos h.endPos) := rfl
    rw [htr] at hi hj
    have hiM : ((tasksFor data).map
        (fun t => Event.matchedTask t.mutationType
          (taskRanges message.data t))).length ≤ i := by
      by_contra hlt
      push_neg at hlt
      rw [List.get?_append hlt, List.get?_map] at hi
      cases h' : (tasksFor data).get? i with
      | none => rw [h'] at hi; exact Option.noConfusion hi
      | some t => rw [h'] at hi; simp at hi
    have hjM : j < ((tasksFor data).map
        (fun t => Event.matchedTask t.mutationType
          (taskRanges message.data t))).length := by
      by_contra hge
      push_neg at hge
      rw [List.get?_append_right hge, List.get?_map] at hj
      cases h' : (highlightsOf (resultsFor data message.data)).get?
          (j - ((tasksFor data).map
            (fun t => Event.matchedTask t.mutationType
              (taskRanges message.data t))).length) with
      | none => rw [h'] at hj; exact Option.noConfusion hj
      | some hfun => rw [h'] at hj; simp at hj
    omega
  · intro flag1 flag2 results1 message1 results2 message2 h1 h2
    rw [searchDataInMessage_eq] at h1 h2
    simp only [Except.ok.injEq, Prod.mk.injEq] at h1 h2
    rw [← h1.1, ← h2.1]

/-- Witness for C9 at a concrete call whose trace has one matching event
followed by one tagging event. -/
theorem C9_highlights_appended_after_all_matching_witness :
    (searchCallTrace (some [("id", [true])])
        (some (AbstractMessage.mk [true] [])) true).get? 1 =
      some (Event.highlightAppended 0 1) ∧ (0 : Nat) < 1 :=
  ⟨rfl, (C9_highlights_appended_after_all_matching [("id", [true])]
      (AbstractMessage.mk [true] [])).1 1 0 0 1 "id" [(0, 1)] rfl rfl⟩

/-- One highlight is appended per match range: the tagging loop's output
length is the total number of ranges across the results. -/
theorem length_highlightsOf (results : List SearchResult) :
    (highlightsOf results).length =
      (results.map (fun r => r.ranges.length)).sum := by
  induction results with
  | nil => rfl
  | cons r rest ih =>
    simp only [highlightsOf, List.flatMap_cons, List.length_append,
      List.length_map, List.map_cons, List.sum_cons]
    simp only [highlightsOf] at ih
    omega

/-- C10: omitting the tagging flag on the public entry point is the same
call as passing `true`; by default a successful call appends one highlight
per found match range to the message, and passing `false` is what leaves
the message untouched. -/
theorem C10_addTags_defaults_true (data : RefValue)
    (message : AbstractMessage) :
    searchInMessage (some data) (some message) =
      searchInMessage (some data) (some message) true ∧
    (∀ results message1,
      searchInMessage (some data) (some message) =
        Except.ok (results, message1) →
      message1.visualizationFunctions =
        message.visualizationFunctions ++ highlightsOf results ∧
      (highlightsOf results).length =
        (results.map (fun r => r.ranges.length)).sum) ∧
    (∀ results message1,
      searchInMessage (some data) (some message) false =
        Except.ok (results, message1) → message1 = message) := by
  refine ⟨rfl, ?_, ?_⟩
  · intro results message1 hok
    rw [searchInMessage, searchDataInMessage_eq] at hok
    simp only [if_true, Except.ok.injEq, Prod.mk.injEq] at hok
    obtain ⟨hres, hmsg⟩ := hok
    subst hres
    rw [← hmsg]
    exact ⟨rfl, length_highlightsOf _⟩
  · intro results message1 hok
    rw [searchInMessage, searchDataInMessage_eq] at hok
    simp only [Bool.false_eq_true, if_false, Except.ok.injEq,
      Prod.mk.injEq] at hok
    exact hok.2.symm

/-- Witness for C10 at a concrete call with the flag omitted. -/
theorem C10_addTags_defaults_true_witness :
    (AbstractMessage.mk [true]
        [HighlightFunction.mk 0 1]).visualizationFunctions =
      (AbstractMessage.mk [true]
          ([] : List HighlightFunction)).visualizationFunctions ++
        highlightsOf
          [SearchResult.mk [true] (SearchTask.mk [true] "id") [(0, 1)]] ∧
    (highlightsOf
        [SearchResult.mk [true] (SearchTask.mk [true] "id") [(0, 1)]]).length =
      ([SearchResult.mk [true] (SearchTask.mk [true] "id") [(0, 1)]].map
        (fun r => r.ranges.length)).sum :=
  (C10_addTags_defaults_true [("id", [true])]
      (AbstractMessage.mk [true] [])).2.1
    [SearchResult.mk [true] (SearchTask.mk [true] "id") [(0, 1)]]
    (AbstractMessage.mk [true] [HighlightFunction.mk 0 1]) rfl
